import Mathlib

/-!
Shallow embedding of the SpiceDB zed-schema parser and semantic analyzer
(TypeScript sources: `src/schema-parser/parser.ts`,
`src/semantic-analyzer/{analyzer,symbol-table,dependency-graph,type-inference}.ts`),
together with theorems settling the specification claims about it.

Conventions used throughout:
* TypeScript `T | null` / `T | undefined` values are `Option T`.
* Recursive procedures whose recursion is not structurally bounded in the
  source (the type-inference engine, expression traversals, the dependency
  DFS) are embedded with an explicit `fuel : Nat` counting nested calls;
  an outer `none` result means the computation does not complete within
  `fuel` nested calls, so `∀ fuel, ... = none` is divergence of the source
  procedure and `some r` for some fuel is its actual result `r`.
* JavaScript `Map`/`Set` objects are association lists / lists with the
  exact insertion-order and overwrite semantics of `Map.set`, `Set.add`.
-/

namespace ZedSchema

/-- `RelationType` from `parser.ts`: optional `wildcard` is a JS optional
boolean (absent ≡ false), optional `relation` an optional string. -/
structure RelationType where
  typeName : String
  wildcard : Bool := false
  relation : Option String := none
deriving DecidableEq

/-- Caveat `Parameter{name, type}` from `parser.ts`. -/
structure Parameter where
  name : String
  type : String
deriving DecidableEq

/-- `CaveatExpression` from `parser.ts` (`operator` is the constant
`'equals'` and is omitted). -/
structure CaveatExpression where
  left : String
  right : Int
deriving DecidableEq

/-- `CaveatDefinition` from `parser.ts` (the `type: 'caveat'` tag lives in
`TopDefinition` below). -/
structure CaveatDefinition where
  name : String
  docComment : Option String := none
  parameters : List Parameter
  expression : CaveatExpression
deriving DecidableEq

/-- `PermissionExpression` from `parser.ts`: the discriminated union over
identifier, n-ary union/intersection, binary exclusion and the three
arrow-like traversals. -/
inductive PermissionExpression where
  | identifier (name : String)
  | union (operands : List PermissionExpression)
  | intersection (operands : List PermissionExpression)
  | exclusion (left right : PermissionExpression)
  | arrow (left : PermissionExpression) (target : String)
  | any (left : PermissionExpression) (target : String)
  | all (left : PermissionExpression) (target : String)

/-- `RelationDeclaration` from `parser.ts`. -/
structure RelationDeclaration where
  name : String
  docComment : Option String := none
  types : List RelationType

/-- `PermissionDeclaration` from `parser.ts`. -/
structure PermissionDeclaration where
  name : String
  docComment : Option String := none
  expression : PermissionExpression

/-- `ObjectTypeDefinition` from `parser.ts` (the `type: 'definition'` tag
lives in `TopDefinition` below). -/
structure ObjectTypeDefinition where
  name : String
  docComment : Option String := none
  relations : List RelationDeclaration
  permissions : List PermissionDeclaration

/-- A top-level definition: the TS union `CaveatDefinition |
ObjectTypeDefinition` discriminated by its `type` field. -/
inductive TopDefinition where
  | caveat (c : CaveatDefinition)
  | object (d : ObjectTypeDefinition)

/-- The shared `name` field of both alternatives of `TopDefinition`. -/
def TopDefinition.name : TopDefinition → String
  | .caveat c => c.name
  | .object d => d.name

/-- `SchemaAST` from `parser.ts`. -/
structure SchemaAST where
  definitions : List TopDefinition

/-! ## JavaScript `Map` on string keys, as an insertion-ordered association
list with `Map.set` overwrite semantics. -/

/-- `Map.set`: overwrite in place when the key exists, else append. -/
def mapSet {α : Type} (m : List (String × α)) (k : String) (v : α) :
    List (String × α) :=
  if m.any (fun p => p.1 == k) then
    m.map (fun p => if p.1 == k then (k, v) else p)
  else m ++ [(k, v)]

/-- `Map.get`: the value at `k`, if any (at most one entry per key). -/
def mapGet {α : Type} (m : List (String × α)) (k : String) : Option α :=
  (m.find? (fun p => p.1 == k)).map Prod.snd

/-! ## Symbol table (`symbol-table.ts`) -/

/-- `SymbolInfo` from `symbol-table.ts`; the `definition` back-pointer is
not embedded (no analyzed code reads it through the table). -/
structure SymbolInfo where
  kind : String
  relations : List (String × RelationDeclaration)
  permissions : List (String × PermissionDeclaration)

/-- The `SymbolTable` class state: its `symbols` map. -/
abbrev SymbolTable : Type := List (String × SymbolInfo)

/-- `SymbolTable.addDefinition`. -/
def addDefinition (st : SymbolTable) (d : TopDefinition) : SymbolTable :=
  match d with
  | .caveat c => mapSet st c.name ⟨"caveat", [], []⟩
  | .object d =>
      mapSet st d.name
        ⟨"definition",
         d.relations.foldl (fun m r => mapSet m r.name r) [],
         d.permissions.foldl (fun m p => mapSet m p.name p) []⟩

/-- `SymbolTable.getDefinition`. -/
def getDefinition (st : SymbolTable) (name : String) : Option SymbolInfo :=
  mapGet st name

/-- `SymbolTable.hasDefinition`. -/
def hasDefinition (st : SymbolTable) (name : String) : Bool :=
  (mapGet st name).isSome

/-- `SymbolTable.getRelation`. -/
def getRelation (st : SymbolTable) (typeName relationName : String) :
    Option RelationDeclaration :=
  (mapGet st typeName).bind fun info => mapGet info.relations relationName

/-- `SymbolTable.getPermission`. -/
def getPermission (st : SymbolTable) (typeName permissionName : String) :
    Option PermissionDeclaration :=
  (mapGet st typeName).bind fun info => mapGet info.permissions permissionName

/-- `SymbolTable.hasRelationOrPermission`. -/
def hasRelationOrPermission (st : SymbolTable) (typeName name : String) :
    Bool :=
  match mapGet st typeName with
  | none => false
  | some info =>
      (mapGet info.relations name).isSome || (mapGet info.permissions name).isSome

/-! ## Type inference engine (`type-inference.ts`) -/

/-- The composite deduplication key used by `deduplicateTypes` and
`intersectTypes`:
`typeName + (type.wildcard ? ':*' : '') + (type.relation ? '#'+type.relation : '')`.
An empty-string `relation` is falsy in JS and contributes nothing. -/
def typeKey (t : RelationType) : String :=
  t.typeName ++ (if t.wildcard then ":*" else "") ++
    (match t.relation with
     | some r => if r == "" then "" else "#" ++ r
     | none => "")

/-- JS truthiness of the optional `relation` field, used by every
`if (typeRef.relation)` test: `undefined` and `""` are falsy. -/
def truthyRel : Option String → Option String
  | some r => if r == "" then none else some r
  | none => none

/-- The loop body of `deduplicateTypes`, threading the `seen` key set. -/
def dedupGo : List RelationType → List String → List RelationType
  | [], _ => []
  | t :: ts, seen =>
      if seen.contains (typeKey t) then dedupGo ts seen
      else t :: dedupGo ts (typeKey t :: seen)

/-- `TypeInferenceEngine.deduplicateTypes`: keep the first occurrence of
each composite key. -/
def deduplicateTypes (types : List RelationType) : List RelationType :=
  dedupGo types []

/-- `TypeInferenceEngine.intersectTypes`: keep the elements of `a` whose
composite key occurs in `b`, then deduplicate. -/
def intersectTypes (a b : List RelationType) : List RelationType :=
  deduplicateTypes (a.filter fun t => (b.map typeKey).contains (typeKey t))

/-- A query to the type-inference engine: either
`inferExpressionType(defName, expr, …)` or
`inferSubjectRelationType(typeName, relationName, …)`. The two methods are
mutually recursive in `type-inference.ts`; folding them into one
fuel-structural function keeps the embedding kernel-computable. -/
inductive InferQuery where
  | expr (defName : String) (e : PermissionExpression)
  | subRel (typeName relationName : String)

/-- Short-circuit accumulator for the `intersection` loop of
`inferExpressionType`: `stopped r` models an early `return` with `r`
(`none` = the nested call did not complete, `some none` = returned null);
`running common` carries the loop's `commonTypes` variable
(`none` = still the initial JS `null`). -/
inductive InterAcc where
  | stopped (r : Option (Option (List RelationType)))
  | running (common : Option (List RelationType))

/-- The bodies of `TypeInferenceEngine.inferExpressionType` and
`TypeInferenceEngine.inferSubjectRelationType`, one fuel per nested call.
Result: `none` = the call does not complete within `fuel` nested calls;
`some none` = the TS methods return `null`; `some (some l)` = they return
the list `l`. `callStack` is the engine's cycle-guard `Set` (the source
mutates it add-then-delete around each recursive call, so passing it by
value is exact). -/
def inferGo (st : SymbolTable) :
    Nat → InferQuery → List String → Option (Option (List RelationType))
  | 0, _, _ => none
  | fuel + 1, .expr defName expr, callStack =>
    match expr with
    | .identifier name =>
      match getRelation st defName name with
      | some rel =>
          -- resolve each declared RelationType, splicing sub-relation refs
          let resolved := rel.types.foldl
            (fun (acc : Option (List RelationType)) typeRef =>
              match acc with
              | none => none
              | some resolvedTypes =>
                match truthyRel typeRef.relation with
                | some r =>
                    match inferGo st fuel (.subRel typeRef.typeName r) callStack with
                    | none => none
                    | some none => some resolvedTypes
                    | some (some l) => some (resolvedTypes ++ l)
                | none => some (resolvedTypes ++ [typeRef]))
            (some [])
          match resolved with
          | none => none
          | some resolvedTypes => some (some (deduplicateTypes resolvedTypes))
      | none =>
        match getPermission st defName name with
        | some perm =>
            let stackKey := defName ++ "#" ++ name
            if callStack.contains stackKey then some none
            else inferGo st fuel (.expr defName perm.expression)
                   (stackKey :: callStack)
        | none => some none
    | .union operands =>
        let allTypes := operands.foldl
          (fun (acc : Option (List RelationType)) operand =>
            match acc with
            | none => none
            | some acc' =>
              match inferGo st fuel (.expr defName operand) callStack with
              | none => none
              | some none => some acc'
              | some (some types) => some (acc' ++ types))
          (some [])
        match allTypes with
        | none => none
        | some l => some (some (deduplicateTypes l))
    | .intersection operands =>
        let res := operands.foldl
          (fun (acc : InterAcc) operand =>
            match acc with
            | .stopped r => .stopped r
            | .running common =>
              match inferGo st fuel (.expr defName operand) callStack with
              | none => .stopped none
              | some none => .stopped (some none)
              | some (some types) =>
                  .running (some (match common with
                    | none => types
                    | some c => intersectTypes c types)))
          (.running none)
        match res with
        | .stopped r => r
        | .running common => some common
    | .exclusion left _ => inferGo st fuel (.expr defName left) callStack
    | .arrow left target | .any left target | .all left target =>
      match inferGo st fuel (.expr defName left) callStack with
      | none => none
      | some none => some none
      | some (some leftTypes) =>
          let res := leftTypes.foldl
            (fun (acc : Option (List RelationType)) leftType =>
              match acc with
              | none => none
              | some resultTypes =>
                let afterRel :=
                  match getRelation st leftType.typeName target with
                  | some targetRel =>
                      targetRel.types.foldl
                        (fun (acc2 : Option (List RelationType)) typeRef =>
                          match acc2 with
                          | none => none
                          | some rts =>
                            match truthyRel typeRef.relation with
                            | some r =>
                                match inferGo st fuel
                                    (.subRel typeRef.typeName r) callStack with
                                | none => none
                                | some none => some rts
                                | some (some l) => some (rts ++ l)
                            | none => some (rts ++ [typeRef]))
                        (some resultTypes)
                  | none => some resultTypes
                match afterRel with
                | none => none
                | some rts2 =>
                  match getPermission st leftType.typeName target with
                  | some targetPerm =>
                      let stackKey := leftType.typeName ++ "#" ++ target
                      if callStack.contains stackKey then some rts2
                      else
                        match inferGo st fuel
                            (.expr leftType.typeName targetPerm.expression)
                            (stackKey :: callStack) with
                        | none => none
                        | some none => some rts2
                        | some (some permTypes) => some (rts2 ++ permTypes)
                  | none => some rts2)
            (some [])
          match res with
          | none => none
          | some resultTypes => some (some (deduplicateTypes resultTypes))
  | fuel + 1, .subRel typeName relationName, callStack =>
    match getRelation st typeName relationName with
    | some targetRel =>
        -- NOTE (faithful to the source): this branch recurses through
        -- sub-relation references without consulting or extending callStack.
        let resolved := targetRel.types.foldl
          (fun (acc : Option (List RelationType)) typeRef =>
            match acc with
            | none => none
            | some resolvedTypes =>
              match truthyRel typeRef.relation with
              | some r =>
                  match inferGo st fuel (.subRel typeRef.typeName r) callStack with
                  | none => none
                  | some none => some resolvedTypes
                  | some (some l) => some (resolvedTypes ++ l)
              | none => some (resolvedTypes ++ [typeRef]))
          (some [])
        match resolved with
        | none => none
        | some resolvedTypes => some (some (deduplicateTypes resolvedTypes))
    | none =>
      match getPermission st typeName relationName with
      | some targetPerm =>
          let stackKey := typeName ++ "#" ++ relationName
          if callStack.contains stackKey then some none
          else inferGo st fuel (.expr typeName targetPerm.expression)
                 (stackKey :: callStack)
      | none => some none

/-- `TypeInferenceEngine.inferExpressionType` (the TS default for
`callStack` is a fresh empty set; callers below pass `[]` explicitly). -/
def inferExpressionType (st : SymbolTable) (fuel : Nat) (defName : String)
    (expr : PermissionExpression) (callStack : List String) :
    Option (Option (List RelationType)) :=
  inferGo st fuel (.expr defName expr) callStack

/-- `TypeInferenceEngine.inferSubjectRelationType`. -/
def inferSubjectRelationType (st : SymbolTable) (fuel : Nat)
    (typeName relationName : String) (callStack : List String) :
    Option (Option (List RelationType)) :=
  inferGo st fuel (.subRel typeName relationName) callStack

/-! ## Dependency graph (`dependency-graph.ts`) -/

/-- The `DependencyGraph.adjacencyList`: node key → insertion-ordered edge
set. The `nodes` map of the class is never read by any analyzed code path
and is not embedded. -/
abbrev Adjacency : Type := List (String × List String)

/-- `DependencyGraph.addNode` (its effect on the adjacency list: ensure the
key exists with an empty edge set). -/
def addNodeKey (g : Adjacency) (k : String) : Adjacency :=
  if g.any (fun p => p.1 == k) then g else g ++ [(k, [])]

/-- `DependencyGraph.addEdge`: ensure `frm` exists, then `Set.add` `to` to
its edge set. -/
def addEdge (g : Adjacency) (src dst : String) : Adjacency :=
  let g' := if g.any (fun p => p.1 == src) then g else g ++ [(src, [])]
  g'.map fun p =>
    if p.1 == src then (p.1, if p.2.contains dst then p.2 else p.2 ++ [dst])
    else p

/-- The cycle path recorded by `findCycles` when `neighbor` is on the
recursion stack: `path.slice(path.indexOf(neighbor)).concat(neighbor)`
(JS `indexOf` yields `-1` when absent, and `slice(-1)` keeps the last
element). -/
def cyclePath (path : List String) (neighbor : String) : List String :=
  (if path.contains neighbor then path.drop (path.indexOf neighbor)
   else path.drop (path.length - 1)) ++ [neighbor]

/-- The recursive `dfs` closure of `DependencyGraph.findCycles`.
`visited` and `cycles` grow monotonically and are threaded through;
`recStack` and `path` are mutated add-then-remove around each recursive
call in the source, so they are passed by value. One fuel per nested
`dfs` call; `none` = the traversal does not complete within `fuel`. -/
def dfsGo (g : Adjacency) :
    Nat → String → List String → List String →
    List String × List (List String) →
    Option (List String × List (List String))
  | 0, _, _, _, _ => none
  | fuel + 1, node, recStack, path, (visited, cycles) =>
    let visited' := if visited.contains node then visited else visited ++ [node]
    let recStack' := if recStack.contains node then recStack else recStack ++ [node]
    let path' := path ++ [node]
    let neighbors := (mapGet g node).getD []
    neighbors.foldl
      (fun (acc : Option (List String × List (List String))) neighbor =>
        match acc with
        | none => none
        | some (v, cs) =>
          if v.contains neighbor then
            if recStack'.contains neighbor then
              some (v, cs ++ [cyclePath path' neighbor])
            else some (v, cs)
          else dfsGo g fuel neighbor recStack' path' (v, cs))
      (some (visited', cycles))

/-- `DependencyGraph.findCycles`: DFS from every not-yet-visited node, in
adjacency-list insertion order. -/
def findCycles (g : Adjacency) (fuel : Nat) : Option (List (List String)) :=
  (g.foldl
    (fun (acc : Option (List String × List (List String))) p =>
      match acc with
      | none => none
      | some (visited, cycles) =>
        if visited.contains p.1 then some (visited, cycles)
        else dfsGo g fuel p.1 [] [] (visited, cycles))
    (some ([], []))).map Prod.snd

/-! ## Semantic analyzer (`analyzer.ts` and the result types module) -/

/-- The `location` payload of a `SemanticError`. -/
structure SemanticLocation where
  definition : Option String := none
  relation : Option String := none
  permission : Option String := none
deriving DecidableEq

/-- `SemanticError` (the constant `type: 'semantic_error'` tag is
omitted). Warnings use the same shape. -/
structure SemanticError where
  code : String
  message : String
  location : SemanticLocation
deriving DecidableEq

/-- `criticalPreAugmentationErrorCodes` from `analyzer.ts`. -/
def criticalPreAugmentationErrorCodes : List String :=
  ["DUPLICATE_DEFINITION", "UNDEFINED_TYPE", "UNDEFINED_RELATION",
   "DUPLICATE_MEMBER_NAME"]

/-- `fatalForUsageErrorCodes` from `analyzer.ts`. -/
def fatalForUsageErrorCodes : List String :=
  criticalPreAugmentationErrorCodes ++
  ["CIRCULAR_DEPENDENCY", "UNDEFINED_IDENTIFIER", "UNDEFINED_ARROW_TARGET",
   "AUGMENTATION_INTERNAL_ERROR"]

/-- Phase 1, `SemanticAnalyzer.buildSymbolTable`: register every
definition, reporting `DUPLICATE_DEFINITION` for repeated names (later
registrations overwrite). -/
def buildSymbolTablePhase (ast : SchemaAST) :
    SymbolTable × List SemanticError :=
  let r := ast.definitions.foldl
    (fun (acc : List String × SymbolTable × List SemanticError) d =>
      let (definedNames, st, errs) := acc
      let errs' :=
        if definedNames.contains d.name then
          errs ++ [⟨"DUPLICATE_DEFINITION",
                    "Duplicate definition name: " ++ d.name,
                    { definition := some d.name }⟩]
        else errs
      (if definedNames.contains d.name then definedNames
       else definedNames ++ [d.name],
       addDefinition st d, errs'))
    ([], [], [])
  (r.2.1, r.2.2)

/-- `SemanticAnalyzer.validateRelation`: undefined subject types, undefined
sub-relations, wildcard warnings. Returns (errors, warnings). -/
def validateRelation (st : SymbolTable) (defName : String)
    (rel : RelationDeclaration) : List SemanticError × List SemanticError :=
  rel.types.foldl
    (fun (acc : List SemanticError × List SemanticError) type_ =>
      let errs :=
        if !hasDefinition st type_.typeName then
          acc.1 ++ [⟨"UNDEFINED_TYPE",
            "Undefined type '" ++ type_.typeName ++ "' in relation '" ++
              rel.name ++ "'",
            { definition := some defName, relation := some rel.name }⟩]
        else acc.1
      let errs :=
        match truthyRel type_.relation with
        | some r =>
          match getDefinition st type_.typeName with
          | some info =>
            if info.kind == "definition" &&
                !hasRelationOrPermission st type_.typeName r then
              errs ++ [⟨"UNDEFINED_RELATION",
                "Undefined relation '" ++ r ++ "' on type '" ++
                  type_.typeName ++ "'",
                { definition := some defName, relation := some rel.name }⟩]
            else errs
          | none => errs
        | none => errs
      let warns :=
        if type_.wildcard then
          acc.2 ++ [⟨"WILDCARD_USAGE",
            "Wildcard used in relation '" ++ rel.name ++
              "'. Be careful with public access.",
            { definition := some defName, relation := some rel.name }⟩]
        else acc.2
      (errs, warns))
    ([], [])

/-- `SemanticAnalyzer.validateObjectTypeDefinition`: duplicate member names
over the shared relation/permission namespace, then per-relation checks. -/
def validateObjectTypeDefinition (st : SymbolTable)
    (d : ObjectTypeDefinition) : List SemanticError × List SemanticError :=
  let afterRels := d.relations.foldl
    (fun (acc : List String × List SemanticError × List SemanticError) rel =>
      let (names, errs, warns) := acc
      let errs :=
        if names.contains rel.name then
          errs ++ [⟨"DUPLICATE_MEMBER_NAME",
            "Duplicate relation/permission name '" ++ rel.name ++ "' in " ++
              d.name,
            { definition := some d.name, relation := some rel.name }⟩]
        else errs
      let names := if names.contains rel.name then names else names ++ [rel.name]
      let (relErrs, relWarns) := validateRelation st d.name rel
      (names, errs ++ relErrs, warns ++ relWarns))
    ([], [], [])
  let afterPerms := d.permissions.foldl
    (fun (acc : List String × List SemanticError × List SemanticError) perm =>
      let (names, errs, warns) := acc
      let errs :=
        if names.contains perm.name then
          errs ++ [⟨"DUPLICATE_MEMBER_NAME",
            "Duplicate relation/permission name '" ++ perm.name ++ "' in " ++
              d.name,
            { definition := some d.name, permission := some perm.name }⟩]
        else errs
      let names := if names.contains perm.name then names else names ++ [perm.name]
      (names, errs, warns))
    afterRels
  (afterPerms.2.1, afterPerms.2.2)

/-- The fixed primitive caveat parameter types accepted by
`validateCaveatDefinition`. -/
def validCaveatParameterTypes : List String :=
  ["int", "uint", "string", "bool", "bytes", "list", "map", "timestamp",
   "duration"]

/-- `SemanticAnalyzer.validateCaveatDefinition`: parameter types must be in
the fixed primitive set; the expression's left identifier must name a
declared parameter. -/
def validateCaveatDefinition (c : CaveatDefinition) : List SemanticError :=
  let paramErrs := c.parameters.foldl
    (fun errs param =>
      if !validCaveatParameterTypes.contains param.type then
        errs ++ [⟨"INVALID_PARAMETER_TYPE",
          "Invalid parameter type '" ++ param.type ++ "' in caveat '" ++
            c.name ++ "'",
          { definition := some c.name }⟩]
      else errs)
    []
  if !(c.parameters.map Parameter.name).contains c.expression.left then
    paramErrs ++ [⟨"UNDEFINED_CAVEAT_PARAMETER",
      "Unknown parameter '" ++ c.expression.left ++ "' in caveat expression",
      { definition := some c.name }⟩]
  else paramErrs

/-- Phase 2, `SemanticAnalyzer.validateDefinitions`. -/
def validateDefinitions (st : SymbolTable) (ast : SchemaAST) :
    List SemanticError × List SemanticError :=
  ast.definitions.foldl
    (fun (acc : List SemanticError × List SemanticError) d =>
      match d with
      | .object o =>
          let (e, w) := validateObjectTypeDefinition st o
          (acc.1 ++ e, acc.2 ++ w)
      | .caveat c => (acc.1 ++ validateCaveatDefinition c, acc.2))
    ([], [])

/-- `SemanticAnalyzer.addExpressionDependencies`: extend the dependency
graph with the edges contributed by `expr` for permission
`defName#permName`. Fuel bounds the expression recursion; the arrow case
also runs type inference on `expr.left` with a fresh empty call stack. -/
def addExpressionDependencies (st : SymbolTable) :
    Nat → Adjacency → String → String → PermissionExpression →
    Option Adjacency
  | 0, _, _, _, _ => none
  | fuel + 1, g, defName, permName, expr =>
    let fromNode := defName ++ "#" ++ permName
    match expr with
    | .identifier name =>
        if hasRelationOrPermission st defName name then
          let toNode := defName ++ "#" ++ name
          some (addEdge (addNodeKey g toNode) fromNode toNode)
        else some g
    | .union operands | .intersection operands =>
        operands.foldl
          (fun (acc : Option Adjacency) operand =>
            match acc with
            | none => none
            | some g' =>
                addExpressionDependencies st fuel g' defName permName operand)
          (some g)
    | .exclusion left right =>
        match addExpressionDependencies st fuel g defName permName left with
        | none => none
        | some g' => addExpressionDependencies st fuel g' defName permName right
    | .arrow left target | .any left target | .all left target =>
        match inferExpressionType st fuel defName left [] with
        | none => none
        | some leftTypes =>
          let g' :=
            match leftTypes with
            | none => g
            | some lts =>
                lts.foldl
                  (fun gg leftType =>
                    let toNode := leftType.typeName ++ "#" ++ target
                    addEdge (addNodeKey gg toNode) fromNode toNode)
                  g
          addExpressionDependencies st fuel g' defName permName left

/-- The cycle filter of `SemanticAnalyzer.checkForCycles`: a length-2 cycle
path with identical endpoints (a permission referring directly to itself)
is skipped; every other cycle becomes one `CIRCULAR_DEPENDENCY` error. -/
def cyclesToErrors (cycles : List (List String)) : List SemanticError :=
  cycles.foldl
    (fun errs cycle =>
      match cycle with
      | [a, b] =>
          if a == b then errs
          else errs ++ [⟨"CIRCULAR_DEPENDENCY",
            "Circular dependency detected: " ++
              String.intercalate " -> " cycle, {}⟩]
      | _ =>
          errs ++ [⟨"CIRCULAR_DEPENDENCY",
            "Circular dependency detected: " ++
              String.intercalate " -> " cycle, {}⟩])
    []

/-- Phase 3, `SemanticAnalyzer.checkForCycles`: build the dependency graph
from every permission of every object-type definition, find cycles, and
report each non-self-loop cycle. -/
def checkForCycles (st : SymbolTable) (fuel : Nat) (ast : SchemaAST) :
    Option (List SemanticError) :=
  let graph := ast.definitions.foldl
    (fun (acc : Option Adjacency) d =>
      match acc with
      | none => none
      | some g =>
        match d with
        | .caveat _ => some g
        | .object o =>
            o.permissions.foldl
              (fun (acc2 : Option Adjacency) perm =>
                match acc2 with
                | none => none
                | some g' =>
                    addExpressionDependencies st fuel
                      (addNodeKey g' (o.name ++ "#" ++ perm.name))
                      o.name perm.name perm.expression)
              (some g))
    (some [])
  match graph with
  | none => none
  | some g =>
    match findCycles g fuel with
    | none => none
    | some cycles => some (cyclesToErrors cycles)

/-- `SemanticAnalyzer.validateExpression`. The arrow-like case first
validates `expr.left`, then infers its subject types with a fresh empty
call stack, and only when the inference result is non-null checks that
`target` exists on at least one resolved type (`UNDEFINED_ARROW_TARGET`
otherwise; its message interpolates `expr.left.name`, which is the JS
string `"undefined"` unless `left` is an identifier). -/
def validateExpression (st : SymbolTable) :
    Nat → String → PermissionExpression → Option (List SemanticError)
  | 0, _, _ => none
  | fuel + 1, defName, expr =>
    match expr with
    | .identifier name =>
        if !hasRelationOrPermission st defName name then
          some [⟨"UNDEFINED_IDENTIFIER",
            "Undefined identifier '" ++ name ++ "' in type '" ++ defName ++ "'",
            { definition := some defName }⟩]
        else some []
    | .union operands =>
        let head : List SemanticError :=
          if operands.length < 2 then
            [⟨"INVALID_EXPRESSION",
              "union expression must have at least 2 operands",
              { definition := some defName }⟩]
          else []
        operands.foldl
          (fun (acc : Option (List SemanticError)) operand =>
            match acc with
            | none => none
            | some errs =>
              match validateExpression st fuel defName operand with
              | none => none
              | some e => some (errs ++ e))
          (some head)
    | .intersection operands =>
        let head : List SemanticError :=
          if operands.length < 2 then
            [⟨"INVALID_EXPRESSION",
              "intersection expression must have at least 2 operands",
              { definition := some defName }⟩]
          else []
        operands.foldl
          (fun (acc : Option (List SemanticError)) operand =>
            match acc with
            | none => none
            | some errs =>
              match validateExpression st fuel defName operand with
              | none => none
              | some e => some (errs ++ e))
          (some head)
    | .exclusion left right =>
        match validateExpression st fuel defName left with
        | none => none
        | some e1 =>
          match validateExpression st fuel defName right with
          | none => none
          | some e2 => some (e1 ++ e2)
    | .arrow left target | .any left target | .all left target =>
        match validateExpression st fuel defName left with
        | none => none
        | some errsLeft =>
          match inferExpressionType st fuel defName left [] with
          | none => none
          | some none => some errsLeft
          | some (some leftTypes) =>
              let targetFound := leftTypes.any fun lt =>
                hasRelationOrPermission st lt.typeName target
              if targetFound then some errsLeft
              else
                let leftName :=
                  match left with
                  | .identifier n => n
                  | _ => "undefined"
                some (errsLeft ++ [⟨"UNDEFINED_ARROW_TARGET",
                  "Target '" ++ target ++ "' not found on resolved types [" ++
                    String.intercalate ", "
                      (leftTypes.map RelationType.typeName) ++
                    "] for expression starting with '" ++ leftName ++ "'",
                  { definition := some defName }⟩])

/-- Phase 4, `SemanticAnalyzer.validateExpressions`: validate every
permission expression of every object-type definition. -/
def validateExpressions (st : SymbolTable) (fuel : Nat) (ast : SchemaAST) :
    Option (List SemanticError) :=
  ast.definitions.foldl
    (fun (acc : Option (List SemanticError)) d =>
      match acc with
      | none => none
      | some errs =>
        match d with
        | .caveat _ => some errs
        | .object o =>
            o.permissions.foldl
              (fun (acc2 : Option (List SemanticError)) perm =>
                match acc2 with
                | none => none
                | some errs' =>
                  match validateExpression st fuel o.name perm.expression with
                  | none => none
                  | some e => some (errs' ++ e))
              (some errs))
    (some [])

/-- `SemanticAnalyzer.isEmptyPermission`: a stub that never fires. -/
def isEmptyPermission (_expr : PermissionExpression) : Bool := false

/-- Phase 5, `SemanticAnalyzer.performAdditionalChecks` (warnings only):
`UNUSED_DEFINITION` for object types never used as a subject type (except
the conventional root `user`), and the never-firing `EMPTY_PERMISSION`
stub. -/
def performAdditionalChecks (ast : SchemaAST) : List SemanticError :=
  let usedTypes := ast.definitions.foldl
    (fun (used : List String) d =>
      match d with
      | .caveat _ => used
      | .object o =>
          o.relations.foldl
            (fun u rel =>
              rel.types.foldl
                (fun u' t =>
                  if u'.contains t.typeName then u' else u' ++ [t.typeName])
                u)
            used)
    []
  let unusedWarns := ast.definitions.foldl
    (fun warns d =>
      match d with
      | .caveat _ => warns
      | .object o =>
          if !usedTypes.contains o.name && o.name != "user" then
            warns ++ [⟨"UNUSED_DEFINITION",
              "Definition '" ++ o.name ++ "' is not referenced anywhere",
              { definition := some o.name }⟩]
          else warns)
    []
  ast.definitions.foldl
    (fun warns d =>
      match d with
      | .caveat _ => warns
      | .object o =>
          o.permissions.foldl
            (fun w perm =>
              if isEmptyPermission perm.expression then
                w ++ [⟨"EMPTY_PERMISSION",
                  "Permission '" ++ perm.name ++ "' in '" ++ o.name ++
                    "' has no granting mechanism",
                  { definition := some o.name, permission := some perm.name }⟩]
              else w)
            warns)
    unusedWarns

/-- `AugmentedPermissionDeclaration`: the permission plus its
`inferredSubjectTypes` (`none` = inference returned null). -/
structure AugmentedPermissionDeclaration where
  name : String
  docComment : Option String := none
  expression : PermissionExpression
  inferredSubjectTypes : Option (List RelationType)

/-- `AugmentedObjectTypeDefinition` (the optional legacy `comments` field
is never produced by the parser and is omitted). -/
structure AugmentedObjectTypeDefinition where
  name : String
  relations : List RelationDeclaration
  permissions : List AugmentedPermissionDeclaration

/-- A top-level entry of the augmented AST: caveats pass through
unchanged. -/
inductive AugmentedTopDefinition where
  | caveat (c : CaveatDefinition)
  | object (d : AugmentedObjectTypeDefinition)

/-- `AugmentedSchemaAST`. -/
structure AugmentedSchemaAST where
  definitions : List AugmentedTopDefinition

/-- `SemanticAnalyzer.augmentAst`: annotate every permission with its
inferred subject types (fresh empty call stack per permission). `none`
means some inference did not complete within `fuel`; in the source that is
the one way this procedure can fail. -/
def augmentAst (st : SymbolTable) (fuel : Nat) (ast : SchemaAST) :
    Option AugmentedSchemaAST :=
  (ast.definitions.foldl
    (fun (acc : Option (List AugmentedTopDefinition)) d =>
      match acc with
      | none => none
      | some defs =>
        match d with
        | .caveat c => some (defs ++ [.caveat c])
        | .object o =>
          let perms := o.permissions.foldl
            (fun (acc2 : Option (List AugmentedPermissionDeclaration)) perm =>
              match acc2 with
              | none => none
              | some ps =>
                match inferExpressionType st fuel o.name perm.expression [] with
                | none => none
                | some inferred =>
                    some (ps ++ [⟨perm.name, perm.docComment,
                                  perm.expression, inferred⟩]))
            (some [])
          match perms with
          | none => none
          | some ps =>
              some (defs ++ [.object ⟨o.name, o.relations, ps⟩]))
    (some [])).map AugmentedSchemaAST.mk

/-- `SchemaAnalysisResult`: `augmentedAst` is `none` when absent; the
symbol table and the error/warning lists are always present. -/
structure SchemaAnalysisResult where
  augmentedAst : Option AugmentedSchemaAST
  symbolTable : SymbolTable
  errors : List SemanticError
  warnings : List SemanticError
  isValid : Bool

/-- `SemanticAnalyzer.analyze` / `analyzeSpiceDbSchema`: the five phases in
order, then `isValid := errors.length === 0`, the fatal-for-usage test,
the unconditional augmentation attempt, and the suppression of the
augmented AST when a fatal-for-usage error is present. `none` = some
fueled traversal (cycle DFS, expression recursion, type inference) did not
complete within `fuel`, i.e. the source call does not return. -/
def analyze (fuel : Nat) (ast : SchemaAST) : Option SchemaAnalysisResult :=
  match checkForCycles (buildSymbolTablePhase ast).1 fuel ast with
  | none => none
  | some errs3 =>
    match validateExpressions (buildSymbolTablePhase ast).1 fuel ast with
    | none => none
    | some errs4 =>
      match augmentAst (buildSymbolTablePhase ast).1 fuel ast with
      | none => none
      | some augmented =>
        let errors := (buildSymbolTablePhase ast).2 ++
          (validateDefinitions (buildSymbolTablePhase ast).1 ast).1 ++
          errs3 ++ errs4
        let warnings :=
          (validateDefinitions (buildSymbolTablePhase ast).1 ast).2 ++
          performAdditionalChecks ast
        if errors.any (fun e => fatalForUsageErrorCodes.contains e.code) then
          some ⟨none, (buildSymbolTablePhase ast).1, errors, warnings,
                errors.isEmpty⟩
        else
          some ⟨some augmented, (buildSymbolTablePhase ast).1, errors,
                warnings, errors.isEmpty⟩

/-! ## CST-to-AST visitor (`SpiceDBVisitor` in `parser.ts`)

Chevrotain's CST node for a rule groups its children by sub-rule/token
name, each group an array in source-text order. The visitor methods below
are embedded over those groups: an argument holding "the visited children
of sub-rule R, in source order" stands for `ctx.R.map(c => this.visit(c))`.
-/

/-- `SpiceDBVisitor.exclusionExpression`. `operands` are the visited
`arrowExpression` children in source order; the grammar rule
(`SUBRULE(arrowExpression); MANY(CONSUME(Minus); SUBRULE2(arrowExpression))`)
yields one child per parsed operand, and `ctx.Minus` is present exactly
when at least one `-` was consumed, i.e. when there are ≥ 2 operands.
With ≥ 2 operands the source destructures only the first two:
`const [left, right] = ctx.arrowExpression.map(...)`. The `[]` case is
unreachable (the grammar always parses at least one operand). -/
def exclusionExpressionVisit :
    List PermissionExpression → PermissionExpression
  | [] => .identifier ""
  | [e] => e
  | a :: b :: _ => .exclusion a b

/-- The strictly binary left fold over an exclusion chain that §4.2 of the
specification describes (`a - b - c` ↦ `exclusion(exclusion(a, b), c)`),
stated from the specification's words for comparison with
`exclusionExpressionVisit`. -/
def exclusionLeftFoldSpec :
    List PermissionExpression → PermissionExpression
  | [] => .identifier ""
  | e :: rest => rest.foldl .exclusion e

/-- Whether a top-level definition is a caveat. -/
def TopDefinition.isCaveat : TopDefinition → Bool
  | .caveat _ => true
  | .object _ => false

/-- `SpiceDBVisitor.schema`. `items` are the schema's top-level
definitions in source-text order; chevrotain's `ctx.caveatDefinition` and
`ctx.objectTypeDefinition` are the two per-rule groups of that sequence,
each in source order, and the visitor pushes all visited caveats first,
then all visited object-type definitions. -/
def schemaVisit (items : List TopDefinition) : SchemaAST :=
  ⟨(items.filter fun d => d.isCaveat) ++
   (items.filter fun d => !d.isCaveat)⟩


/-! ## Named loop bodies

The following functions name the `foldl` loop bodies that appear inline in
`inferGo` (they are definitionally equal to the corresponding lambdas;
the bridge theorems below are proved by `rfl`), so that lemmas can speak
about the loops. -/

/-- The body of the loop that resolves a relation's declared
`RelationType` list, splicing in sub-relation references (it appears in
the identifier case of `inferExpressionType`, in the `targetRel` part of
its arrow case, and in `inferSubjectRelationType`). -/
def subRelStep (st : SymbolTable) (fuel : Nat) (cs : List String)
    (acc : Option (List RelationType)) (typeRef : RelationType) :
    Option (List RelationType) :=
  match acc with
  | none => none
  | some resolvedTypes =>
    match truthyRel typeRef.relation with
    | some r =>
        match inferGo st fuel (.subRel typeRef.typeName r) cs with
        | none => none
        | some none => some resolvedTypes
        | some (some l) => some (resolvedTypes ++ l)
    | none => some (resolvedTypes ++ [typeRef])

/-- The body of the union-operand loop of `inferExpressionType`. -/
def unionStep (st : SymbolTable) (fuel : Nat) (defName : String)
    (cs : List String) (acc : Option (List RelationType))
    (operand : PermissionExpression) : Option (List RelationType) :=
  match acc with
  | none => none
  | some acc' =>
    match inferGo st fuel (.expr defName operand) cs with
    | none => none
    | some none => some acc'
    | some (some types) => some (acc' ++ types)

/-- The body of the intersection-operand loop of `inferExpressionType`. -/
def interStep (st : SymbolTable) (fuel : Nat) (defName : String)
    (cs : List String) (acc : InterAcc)
    (operand : PermissionExpression) : InterAcc :=
  match acc with
  | .stopped r => .stopped r
  | .running common =>
    match inferGo st fuel (.expr defName operand) cs with
    | none => .stopped none
    | some none => .stopped (some none)
    | some (some types) =>
        .running (some (match common with
          | none => types
          | some c => intersectTypes c types))

/-- The body of the per-left-type loop of the arrow/any/all case of
`inferExpressionType`. -/
def arrowStep (st : SymbolTable) (fuel : Nat) (target : String)
    (cs : List String) (acc : Option (List RelationType))
    (leftType : RelationType) : Option (List RelationType) :=
  match acc with
  | none => none
  | some resultTypes =>
    let afterRel :=
      match getRelation st leftType.typeName target with
      | some targetRel =>
          targetRel.types.foldl (subRelStep st fuel cs) (some resultTypes)
      | none => some resultTypes
    match afterRel with
    | none => none
    | some rts2 =>
      match getPermission st leftType.typeName target with
      | some targetPerm =>
          if cs.contains (leftType.typeName ++ "#" ++ target) then some rts2
          else
            match inferGo st fuel
                (.expr leftType.typeName targetPerm.expression)
                ((leftType.typeName ++ "#" ++ target) :: cs) with
            | none => none
            | some none => some rts2
            | some (some permTypes) => some (rts2 ++ permTypes)
      | none => some rts2

/-! ## Concrete fixtures used by the claim theorems -/

/-- The schema of C9: one caveat with a parameter of undeclared type
`badtype`, producing an `INVALID_PARAMETER_TYPE` error, which is not in
the fatal-for-usage list. -/
def c9Ast : SchemaAST :=
  ⟨[.caveat ⟨"limited", none, [⟨"x", "badtype"⟩], ⟨"x", 1⟩⟩]⟩

/-- The schema of C4's first scenario: a permission referring directly to
itself (`permission p = p`), a length-2 self-loop in the dependency
graph. -/
def c4SelfAst : SchemaAST :=
  ⟨[.object ⟨"node", none, [], [⟨"p", none, .identifier "p"⟩]⟩]⟩

/-- The schema of C4's second scenario (spec Scenario C):
`definition node { permission p1 = p2  permission p2 = p1 }`. -/
def c4PairAst : SchemaAST :=
  ⟨[.object ⟨"node", none, [],
     [⟨"p1", none, .identifier "p2"⟩, ⟨"p2", none, .identifier "p1"⟩]⟩]⟩

/-- The schema and symbol table of C10's witness. -/
def c10St : SymbolTable :=
  (buildSymbolTablePhase ⟨[.object ⟨"doc", none, [], []⟩]⟩).1

/-- The schema of C2: `definition a { relation x: b#y }` and
`definition b { relation y: a#x }` — a cyclic sub-relation reference chain
through relations only (no permissions involved). -/
def c2Ast : SchemaAST :=
  ⟨[.object ⟨"a", none, [⟨"x", none, [⟨"b", false, some "y"⟩]⟩], []⟩,
    .object ⟨"b", none, [⟨"y", none, [⟨"a", false, some "x"⟩]⟩], []⟩]⟩

/-- The symbol table of `c2Ast`. -/
def c2St : SymbolTable := (buildSymbolTablePhase c2Ast).1


/-- A small well-formed schema shared by the witnesses of the inference
claims: `document.owner : user` and `document.lead : group#member`, where
`group.member : user`. -/
def c678Ast : SchemaAST :=
  ⟨[.object ⟨"user", none, [], []⟩,
    .object ⟨"group", none, [⟨"member", none, [⟨"user", false, none⟩]⟩], []⟩,
    .object ⟨"document", none,
      [⟨"owner", none, [⟨"user", false, none⟩]⟩,
       ⟨"lead", none, [⟨"group", false, some "member"⟩]⟩],
      []⟩]⟩

/-- The symbol table of `c678Ast`. -/
def c678St : SymbolTable := (buildSymbolTablePhase c678Ast).1

/-! ## Claim theorems -/

/-- C1: the claim says parsing `a - b - c` yields the strictly binary
left-folded nesting `exclusion(exclusion(a, b), c)` with no operand
dropped. The visitor instead destructures only the first two visited
operands, returning `exclusion(a, b)` and silently discarding `c`. -/
theorem exclusionVisit_drops_third_operand :
    exclusionExpressionVisit
        [.identifier "a", .identifier "b", .identifier "c"] =
      .exclusion (.identifier "a") (.identifier "b") ∧
    exclusionExpressionVisit
        [.identifier "a", .identifier "b", .identifier "c"] ≠
      exclusionLeftFoldSpec
        [.identifier "a", .identifier "b", .identifier "c"] := by
  refine ⟨rfl, fun h => ?_⟩
  simp only [exclusionExpressionVisit, exclusionLeftFoldSpec, List.foldl,
    PermissionExpression.exclusion.injEq] at h
  exact PermissionExpression.noConfusion h.1

/-- C3 counterexample: for a schema whose textual order is an object-type
definition followed by a caveat, the visitor's `definitions` sequence is
the caveat first — not the textual order the claim states. -/
theorem schemaVisit_not_textual_order :
    (schemaVisit [.object ⟨"a", none, [], []⟩,
                  .caveat ⟨"c", none, [], ⟨"x", 1⟩⟩]).definitions.map
        TopDefinition.name = ["c", "a"] ∧
    ([TopDefinition.object ⟨"a", none, [], []⟩,
      TopDefinition.caveat ⟨"c", none, [], ⟨"x", 1⟩⟩].map
        TopDefinition.name = ["a", "c"]) ∧
    (schemaVisit [.object ⟨"a", none, [], []⟩,
                  .caveat ⟨"c", none, [], ⟨"x", 1⟩⟩]).definitions ≠
      [.object ⟨"a", none, [], []⟩, .caveat ⟨"c", none, [], ⟨"x", 1⟩⟩] := by
  refine ⟨rfl, rfl, fun h => ?_⟩
  have := congrArg (List.map TopDefinition.name) h
  simp [schemaVisit, TopDefinition.isCaveat, TopDefinition.name] at this

/-- C3 amended: `parse` returns the top-level definitions as a permutation
of the textual sequence in which every caveat definition precedes every
object-type definition, each group keeping its own textual order;
the interleaved textual order itself is not preserved. -/
theorem schemaVisit_groups_caveats_first (items : List TopDefinition) :
    (schemaVisit items).definitions.Perm items ∧
    (schemaVisit items).definitions.filter (fun d => d.isCaveat) =
      items.filter (fun d => d.isCaveat) ∧
    (schemaVisit items).definitions.filter (fun d => !d.isCaveat) =
      items.filter (fun d => !d.isCaveat) ∧
    ∃ cs os, (schemaVisit items).definitions = cs ++ os ∧
      (∀ d ∈ cs, d.isCaveat = true) ∧ (∀ d ∈ os, d.isCaveat = false) := by
  refine ⟨List.filter_append_perm _ items, ?_, ?_, ?_⟩
  · simp [schemaVisit, List.filter_filter]
  · simp [schemaVisit, List.filter_filter]
  · exact ⟨items.filter (fun d => d.isCaveat),
      items.filter (fun d => !d.isCaveat), rfl,
      fun d hd => (List.mem_filter.mp hd).2,
      fun d hd => by simpa using (List.mem_filter.mp hd).2⟩


/-- C9: `analyze` can return `isValid = false` with a non-empty error list
whose codes (here `INVALID_PARAMETER_TYPE`) are all outside the
fatal-for-usage set, and the augmented AST is still present. -/
theorem analyze_invalid_with_augmented_ast :
    (analyze 10 c9Ast).isSome = true ∧
    (analyze 10 c9Ast).all (fun r =>
      !r.isValid && !r.errors.isEmpty &&
      r.errors.any (fun e => e.code == "INVALID_PARAMETER_TYPE") &&
      r.errors.all (fun e => !fatalForUsageErrorCodes.contains e.code) &&
      r.augmentedAst.isSome) = true := by
  constructor
  · rfl
  · decide


/-- C4: a length-2 cycle path with identical endpoints never contributes a
`CIRCULAR_DEPENDENCY` error (first conjunct, over every cycle list);
analyzing the direct self-loop schema completes with no
`CIRCULAR_DEPENDENCY` error at all, while the two-permission cycle yields
exactly one error, it is `CIRCULAR_DEPENDENCY`, and the augmented AST is
absent. -/
theorem selfLoop_allowed_pairCycle_rejected :
    (∀ (a : String) (cycles : List (List String)),
        cyclesToErrors ([a, a] :: cycles) = cyclesToErrors cycles) ∧
    (analyze 10 c4SelfAst).isSome = true ∧
    (analyze 10 c4SelfAst).all (fun r =>
      r.errors.all (fun e => e.code != "CIRCULAR_DEPENDENCY")) = true ∧
    (analyze 10 c4PairAst).isSome = true ∧
    (analyze 10 c4PairAst).all (fun r =>
      r.errors.length == 1 &&
      r.errors.all (fun e => e.code == "CIRCULAR_DEPENDENCY") &&
      r.augmentedAst.isNone) = true := by
  refine ⟨fun a cycles => ?_, rfl, by decide, rfl, by decide⟩
  simp [cyclesToErrors, List.foldl]

/-- C5: whenever `analyze` completes, `isValid` is true exactly when the
error list is empty; whenever any fatal-for-usage error code is present
the returned augmented AST is absent even though augmentation was
computed (last conjunct: the augmentation attempt succeeded); and the
symbol table built in phase 1 is returned in every case. -/
theorem analyze_contract (fuel : Nat) (ast : SchemaAST)
    (r : SchemaAnalysisResult) (h : analyze fuel ast = some r) :
    r.isValid = r.errors.isEmpty ∧
    ((r.errors.any fun e => fatalForUsageErrorCodes.contains e.code) = true →
      r.augmentedAst = none) ∧
    r.symbolTable = (buildSymbolTablePhase ast).1 ∧
    (augmentAst (buildSymbolTablePhase ast).1 fuel ast).isSome = true := by
  unfold analyze at h
  split at h
  next => exact absurd h (by simp)
  next errs3 hc =>
  split at h
  next => exact absurd h (by simp)
  next errs4 hv =>
  split at h
  next => exact absurd h (by simp)
  next augmented ha =>
  simp only [] at h
  split at h
  next hfatal =>
    cases h
    exact ⟨rfl, fun _ => rfl, rfl, by rw [ha]; rfl⟩
  next hfatal =>
    cases h
    exact ⟨rfl, fun hx => absurd hx (by simpa using hfatal), rfl,
      by rw [ha]; rfl⟩

/-- Witness for C5 at the empty schema. -/
theorem analyze_contract_witness :
    ∃ r, analyze 5 (⟨[]⟩ : SchemaAST) = some r ∧
      (r.isValid = r.errors.isEmpty ∧
       ((r.errors.any fun e => fatalForUsageErrorCodes.contains e.code) = true →
         r.augmentedAst = none) ∧
       r.symbolTable = (buildSymbolTablePhase ⟨[]⟩).1 ∧
       (augmentAst (buildSymbolTablePhase ⟨[]⟩).1 5 ⟨[]⟩).isSome = true) :=
  ⟨_, rfl, analyze_contract 5 ⟨[]⟩ _ rfl⟩

/-- C10: when the left-hand side of an arrow/any/all expression infers to
null, validating the expression adds no `UNDEFINED_ARROW_TARGET` error for
it — the produced error list is exactly the one from validating the left
side alone. -/
theorem arrow_check_skipped_when_left_null
    (st : SymbolTable) (fuel : Nat) (defName target : String)
    (left : PermissionExpression)
    (h : inferExpressionType st fuel defName left [] = some none) :
    validateExpression st (fuel + 1) defName (.arrow left target) =
      validateExpression st fuel defName left ∧
    validateExpression st (fuel + 1) defName (.any left target) =
      validateExpression st fuel defName left ∧
    validateExpression st (fuel + 1) defName (.all left target) =
      validateExpression st fuel defName left := by
  refine ⟨?_, ?_, ?_⟩ <;>
    · simp only [validateExpression, h]
      cases hv : validateExpression st fuel defName left <;> simp [hv]


/-- Witness for C10: `ghost` is neither a relation nor a permission of
`doc`, so its inference is null, and validating `ghost->m` yields exactly
the errors of validating `ghost`. -/
theorem arrow_check_skipped_witness :
    inferExpressionType c10St 1 "doc" (.identifier "ghost") [] = some none ∧
    validateExpression c10St 2 "doc" (.arrow (.identifier "ghost") "m") =
      validateExpression c10St 1 "doc" (.identifier "ghost") :=
  ⟨by decide,
   (arrow_check_skipped_when_left_null c10St 1 "doc" "m" (.identifier "ghost")
     (by decide)).1⟩


/-- On `c2Ast`, resolving either sub-relation reference never completes,
at any recursion depth: `inferSubjectRelationType` re-enters itself
through the relation branch without consulting or extending `callStack`. -/
theorem c2_subRel_none : ∀ fuel cs,
    inferGo c2St fuel (.subRel "a" "x") cs = none ∧
    inferGo c2St fuel (.subRel "b" "y") cs = none := by
  intro fuel
  induction fuel with
  | zero => intro cs; exact ⟨rfl, rfl⟩
  | succ f ih =>
    intro cs
    constructor
    · have e : inferGo c2St (f + 1) (.subRel "a" "x") cs =
        (match (match inferGo c2St f (.subRel "b" "y") cs with
                | none => none
                | some none => some ([] : List RelationType)
                | some (some l) => some ([] ++ l)) with
         | none => none
         | some resolvedTypes => some (some (deduplicateTypes resolvedTypes))) :=
        rfl
      rw [e, (ih cs).2]
    · have e : inferGo c2St (f + 1) (.subRel "b" "y") cs =
        (match (match inferGo c2St f (.subRel "a" "x") cs with
                | none => none
                | some none => some ([] : List RelationType)
                | some (some l) => some ([] ++ l)) with
         | none => none
         | some resolvedTypes => some (some (deduplicateTypes resolvedTypes))) :=
        rfl
      rw [e, (ih cs).1]

/-- C2: the claim says `inferExpressionType` terminates on every schema —
re-entering a `type#member` key on the call stack yields null for that
path, for sub-relation references through relations as well as through
permissions. On the cyclic-through-relations schema `c2Ast` (which phase-2
validation accepts: both referenced sub-relations exist, first conjunct),
inference of relation `x` instead fails to complete at every recursion
depth and for every incoming call stack: the relation branch of
`inferSubjectRelationType` carries no cycle guard, so the source recursion
is unbounded. -/
theorem infer_diverges_on_cyclic_relation_refs :
    (validateDefinitions c2St c2Ast).1 = [] ∧
    ∀ fuel cs,
      inferExpressionType c2St fuel "a" (.identifier "x") cs = none ∧
      inferSubjectRelationType c2St fuel "a" "x" cs = none := by
  refine ⟨by decide, fun fuel cs => ⟨?_, (c2_subRel_none fuel cs).1⟩⟩
  cases fuel with
  | zero => rfl
  | succ f =>
    have e : inferGo c2St (f + 1) (.expr "a" (.identifier "x")) cs =
      (match (match inferGo c2St f (.subRel "b" "y") cs with
              | none => none
              | some none => some ([] : List RelationType)
              | some (some l) => some ([] ++ l)) with
       | none => none
       | some resolvedTypes => some (some (deduplicateTypes resolvedTypes))) :=
      rfl
    show inferGo c2St (f + 1) (.expr "a" (.identifier "x")) cs = none
    rw [e, (c2_subRel_none f cs).2]

/-! ## Bridge equations: the inline loops of `inferGo` as named folds -/

/-- The union case of `inferExpressionType` as a fold of `unionStep`. -/
theorem inferGo_union (st : SymbolTable) (fuel : Nat) (defName : String)
    (cs : List String) (ops : List PermissionExpression) :
    inferGo st (fuel + 1) (.expr defName (.union ops)) cs =
      (match ops.foldl (unionStep st fuel defName cs) (some []) with
       | none => none
       | some l => some (some (deduplicateTypes l))) := rfl

/-- The intersection case of `inferExpressionType` as a fold of
`interStep`. -/
theorem inferGo_intersection (st : SymbolTable) (fuel : Nat)
    (defName : String) (cs : List String)
    (ops : List PermissionExpression) :
    inferGo st (fuel + 1) (.expr defName (.intersection ops)) cs =
      (match ops.foldl (interStep st fuel defName cs) (.running none) with
       | .stopped r => r
       | .running common => some common) := rfl

/-- The identifier case of `inferExpressionType` with its relation-type
loop as a fold of `subRelStep`. -/
theorem inferGo_identifier (st : SymbolTable) (fuel : Nat)
    (defName name : String) (cs : List String) :
    inferGo st (fuel + 1) (.expr defName (.identifier name)) cs =
      (match getRelation st defName name with
       | some rel =>
         (match rel.types.foldl (subRelStep st fuel cs) (some []) with
          | none => none
          | some resolvedTypes => some (some (deduplicateTypes resolvedTypes)))
       | none =>
         match getPermission st defName name with
         | some perm =>
             if cs.contains (defName ++ "#" ++ name) then some none
             else inferGo st fuel (.expr defName perm.expression)
                    ((defName ++ "#" ++ name) :: cs)
         | none => some none) := rfl

/-- `inferSubjectRelationType` with its relation-type loop as a fold of
`subRelStep`. -/
theorem inferGo_subRel (st : SymbolTable) (fuel : Nat)
    (typeName relationName : String) (cs : List String) :
    inferGo st (fuel + 1) (.subRel typeName relationName) cs =
      (match getRelation st typeName relationName with
       | some targetRel =>
         (match targetRel.types.foldl (subRelStep st fuel cs) (some []) with
          | none => none
          | some resolvedTypes => some (some (deduplicateTypes resolvedTypes)))
       | none =>
         match getPermission st typeName relationName with
         | some targetPerm =>
             if cs.contains (typeName ++ "#" ++ relationName) then some none
             else inferGo st fuel (.expr typeName targetPerm.expression)
                    ((typeName ++ "#" ++ relationName) :: cs)
         | none => some none) := rfl

/-- The arrow/any/all case of `inferExpressionType` with its per-left-type
loop as a fold of `arrowStep`. -/
theorem inferGo_arrowlike (st : SymbolTable) (fuel : Nat)
    (defName : String) (left : PermissionExpression) (target : String)
    (cs : List String) :
    (inferGo st (fuel + 1) (.expr defName (.arrow left target)) cs =
      (match inferGo st fuel (.expr defName left) cs with
       | none => none
       | some none => some none
       | some (some leftTypes) =>
         match leftTypes.foldl (arrowStep st fuel target cs) (some []) with
         | none => none
         | some resultTypes =>
             some (some (deduplicateTypes resultTypes)))) ∧
    (inferGo st (fuel + 1) (.expr defName (.any left target)) cs =
      (match inferGo st fuel (.expr defName left) cs with
       | none => none
       | some none => some none
       | some (some leftTypes) =>
         match leftTypes.foldl (arrowStep st fuel target cs) (some []) with
         | none => none
         | some resultTypes =>
             some (some (deduplicateTypes resultTypes)))) ∧
    (inferGo st (fuel + 1) (.expr defName (.all left target)) cs =
      (match inferGo st fuel (.expr defName left) cs with
       | none => none
       | some none => some none
       | some (some leftTypes) =>
         match leftTypes.foldl (arrowStep st fuel target cs) (some []) with
         | none => none
         | some resultTypes =>
             some (some (deduplicateTypes resultTypes)))) :=
  ⟨rfl, rfl, rfl⟩

/-! ## C7: union inference -/

/-- The union loop accumulates, in order, exactly the concatenation of the
resolved operand results, skipping the null ones. -/
theorem unionFold_eq (st : SymbolTable) (fuel : Nat) (defName : String)
    (cs : List String) :
    ∀ (ops : List PermissionExpression)
      (rs : List (Option (List RelationType))),
      List.Forall₂ (fun op r =>
        inferGo st fuel (.expr defName op) cs = some r) ops rs →
      ∀ acc, ops.foldl (unionStep st fuel defName cs) (some acc) =
        some (acc ++ rs.reduceOption.flatten) := by
  intro ops rs h
  induction h with
  | nil => intro acc; simp [List.reduceOption]
  | @cons op r ops' rs' h1 h2 ih =>
    intro acc
    cases r with
    | none =>
        simp only [List.foldl_cons, unionStep, h1,
          List.reduceOption_cons_of_none]
        exact ih acc
    | some l =>
        simp only [List.foldl_cons, unionStep, h1,
          List.reduceOption_cons_of_some]
        rw [ih (acc ++ l)]
        simp [List.append_assoc]

/-- C7: union inference skips operands whose inference resolves to null
and returns the deduplicated concatenation of the resolved operands' type
sets; in particular, when every operand fails the result is the empty
list, not null. (`rs` lists each operand's completed inference result;
`reduceOption` keeps the non-null ones in order.) -/
theorem union_inference_skips_failed_operands
    (st : SymbolTable) (fuel : Nat) (defName : String) (cs : List String)
    (ops : List PermissionExpression) (rs : List (Option (List RelationType)))
    (h : List.Forall₂ (fun op r =>
        inferExpressionType st fuel defName op cs = some r) ops rs) :
    inferExpressionType st (fuel + 1) defName (.union ops) cs =
      some (some (deduplicateTypes rs.reduceOption.flatten)) ∧
    ((∀ r ∈ rs, r = none) →
      inferExpressionType st (fuel + 1) defName (.union ops) cs =
        some (some [])) := by
  have main : inferExpressionType st (fuel + 1) defName (.union ops) cs =
      some (some (deduplicateTypes rs.reduceOption.flatten)) := by
    show inferGo st (fuel + 1) (.expr defName (.union ops)) cs = _
    rw [inferGo_union, unionFold_eq st fuel defName cs ops rs h []]
    simp
  refine ⟨main, fun hall => ?_⟩
  rw [main, show rs.reduceOption = [] from
    List.filterMap_eq_nil_iff.mpr (by simpa using hall)]
  rfl

/-- Witness for C7: `owner` resolves to `[user]`, `ghost` fails (null);
their union resolves to the deduplicated concatenation `[user]`. -/
theorem union_inference_witness :
    List.Forall₂ (fun op r =>
        inferExpressionType c678St 2 "document" op [] = some r)
      [.identifier "owner", .identifier "ghost"]
      [some [⟨"user", false, none⟩], none] ∧
    inferExpressionType c678St 3 "document"
      (.union [.identifier "owner", .identifier "ghost"]) [] =
      some (some (deduplicateTypes
        (([some [⟨"user", false, none⟩], none] :
            List (Option (List RelationType))).reduceOption.flatten))) := by
  have hf : List.Forall₂ (fun op r =>
      inferExpressionType c678St 2 "document" op [] = some r)
      [.identifier "owner", .identifier "ghost"]
      [some [⟨"user", false, none⟩], none] :=
    List.Forall₂.cons (by decide) (List.Forall₂.cons (by decide)
      List.Forall₂.nil)
  exact ⟨hf,
    (union_inference_skips_failed_operands c678St 2 "document" [] _ _ hf).1⟩

/-! ## C6: intersection inference -/

/-- Once the intersection loop has stopped, later operands are ignored. -/
theorem interFold_stopped (st : SymbolTable) (fuel : Nat) (defName : String)
    (cs : List String) (r : Option (Option (List RelationType))) :
    ∀ ops : List PermissionExpression,
      ops.foldl (interStep st fuel defName cs) (.stopped r) = .stopped r := by
  intro ops
  induction ops with
  | nil => rfl
  | cons op ops ih => simpa [interStep] using ih

/-- If no operand diverges and some operand resolves to null, the
intersection loop stops with null. -/
theorem interFold_null (st : SymbolTable) (fuel : Nat) (defName : String)
    (cs : List String) :
    ∀ ops : List PermissionExpression,
      (∀ op ∈ ops, inferGo st fuel (.expr defName op) cs ≠ none) →
      (∃ op ∈ ops, inferGo st fuel (.expr defName op) cs = some none) →
      ∀ c, ops.foldl (interStep st fuel defName cs) (.running c) =
        .stopped (some none) := by
  intro ops
  induction ops with
  | nil => intro _ hex _; exact absurd hex (by simp)
  | cons op ops ih =>
    intro hall hex c
    cases hop : inferGo st fuel (.expr defName op) cs with
    | none => exact absurd hop (hall op (by simp))
    | some v =>
      cases v with
      | none =>
          simp only [List.foldl_cons, interStep, hop]
          exact interFold_stopped st fuel defName cs _ ops
      | some types =>
          simp only [List.foldl_cons, interStep, hop]
          refine ih (fun o ho => hall o (by simp [ho])) ?_ _
          obtain ⟨o, ho, hnull⟩ := hex
          rcases List.mem_cons.mp ho with rfl | ho'
          · rw [hop] at hnull; exact absurd hnull (by simp)
          · exact ⟨o, ho', hnull⟩

/-- When every operand resolves to a list, the intersection loop folds
`intersectTypes` over them. -/
theorem interFold_all_resolved (st : SymbolTable) (fuel : Nat)
    (defName : String) (cs : List String) :
    ∀ (ops : List PermissionExpression) (rs : List (List RelationType)),
      List.Forall₂ (fun op r =>
        inferGo st fuel (.expr defName op) cs = some (some r)) ops rs →
      ∀ c, ops.foldl (interStep st fuel defName cs) (.running (some c)) =
        .running (some (rs.foldl intersectTypes c)) := by
  intro ops rs h
  induction h with
  | nil => intro c; rfl
  | @cons op r ops' rs' h1 h2 ih =>
    intro c
    simp only [List.foldl_cons, interStep, h1]
    exact ih (intersectTypes c r)

/-- Membership of a composite key in `dedupGo`: present iff it is a key of
the input and not already seen. -/
theorem mem_keys_dedupGo (k : String) :
    ∀ (ts : List RelationType) (seen : List String),
      k ∈ (dedupGo ts seen).map typeKey ↔
        (k ∈ ts.map typeKey ∧ k ∉ seen) := by
  intro ts
  induction ts with
  | nil => simp [dedupGo]
  | cons t ts ih =>
    intro seen
    by_cases hc : typeKey t ∈ seen
    · rw [dedupGo, if_pos (by simpa using hc)]
      rw [ih seen]
      simp only [List.map_cons, List.mem_cons]
      constructor
      · exact fun ⟨h1, h2⟩ => ⟨Or.inr h1, h2⟩
      · rintro ⟨h1 | h1, h2⟩
        · exact absurd (h1 ▸ hc) h2
        · exact ⟨h1, h2⟩
    · rw [dedupGo, if_neg (by simpa using hc)]
      simp only [List.map_cons, List.mem_cons, ih (typeKey t :: seen)]
      constructor
      · rintro (rfl | ⟨h1, h2⟩)
        · exact ⟨Or.inl rfl, hc⟩
        · exact ⟨Or.inr h1, fun hk => h2 (Or.inr hk)⟩
      · rintro ⟨rfl | h1, h2⟩
        · exact Or.inl rfl
        · by_cases hk : k = typeKey t
          · exact Or.inl hk
          · exact Or.inr ⟨h1, by simp [hk, h2]⟩

/-- `deduplicateTypes` preserves the set of composite keys. -/
theorem mem_keys_dedup (k : String) (ts : List RelationType) :
    k ∈ (deduplicateTypes ts).map typeKey ↔ k ∈ ts.map typeKey := by
  rw [deduplicateTypes, mem_keys_dedupGo]
  simp

/-- A key is in `intersectTypes a b` iff it is a key of both `a` and
`b`. -/
theorem mem_keys_intersect (k : String) (a b : List RelationType) :
    k ∈ (intersectTypes a b).map typeKey ↔
      (k ∈ a.map typeKey ∧ k ∈ b.map typeKey) := by
  rw [intersectTypes, mem_keys_dedup]
  simp only [List.mem_map, List.mem_filter]
  constructor
  · rintro ⟨t, ⟨ht, hp⟩, rfl⟩
    exact ⟨⟨t, ht, rfl⟩, by simpa using hp⟩
  · rintro ⟨⟨t, ht, rfl⟩, hb⟩
    exact ⟨t, ⟨ht, by simpa using hb⟩, rfl⟩

/-- A key survives the `intersectTypes` fold iff it is a key of the start
value and of every folded list. -/
theorem mem_keys_foldl_intersect (k : String) :
    ∀ (rs : List (List RelationType)) (c : List RelationType),
      k ∈ ((rs.foldl intersectTypes c).map typeKey) ↔
        (k ∈ c.map typeKey ∧ ∀ r ∈ rs, k ∈ r.map typeKey) := by
  intro rs
  induction rs with
  | nil => simp
  | cons r rs ih =>
    intro c
    rw [List.foldl_cons, ih, mem_keys_intersect]
    constructor
    · rintro ⟨⟨h1, h2⟩, h3⟩
      exact ⟨h1, fun r' hr' => by
        rcases List.mem_cons.mp hr' with rfl | hr'
        · exact h2
        · exact h3 r' hr'⟩
    · rintro ⟨h1, h2⟩
      exact ⟨⟨h1, h2 r (by simp)⟩, fun r' hr' => h2 r' (by simp [hr'])⟩

/-- C6: for an intersection with at least two operands (the well-formed
arity), if any operand's inference resolves to null (and none diverges)
the whole intersection's inference is null; otherwise the result is the
set intersection of all operand type sets, where two `RelationType`s are
identified by the composite key `typeName` + wildcard flag + sub-relation
name: a key is in the result exactly when it is a key of every operand's
set. -/
theorem intersection_inference_strict
    (st : SymbolTable) (fuel : Nat) (defName : String) (cs : List String)
    (ops : List PermissionExpression) (h2 : 2 ≤ ops.length) :
    ((∀ op ∈ ops, inferExpressionType st fuel defName op cs ≠ none) →
     (∃ op ∈ ops, inferExpressionType st fuel defName op cs = some none) →
     inferExpressionType st (fuel + 1) defName (.intersection ops) cs =
       some none) ∧
    (∀ rs : List (List RelationType),
      List.Forall₂ (fun op r =>
        inferExpressionType st fuel defName op cs = some (some r)) ops rs →
      ∃ l, inferExpressionType st (fuel + 1) defName (.intersection ops) cs =
          some (some l) ∧
        ∀ k, k ∈ l.map typeKey ↔ ∀ r ∈ rs, k ∈ r.map typeKey) := by
  constructor
  · intro hall hex
    show inferGo st (fuel + 1) (.expr defName (.intersection ops)) cs =
      some none
    rw [inferGo_intersection,
      interFold_null st fuel defName cs ops hall hex none]
  · intro rs hf
    cases hf with
    | nil => exact absurd h2 (by simp)
    | @cons op r ops' rs' h1 hrest =>
      have h1' : inferGo st fuel (.expr defName op) cs = some (some r) := h1
      refine ⟨rs'.foldl intersectTypes r, ?_, ?_⟩
      · show inferGo st (fuel + 1)
          (.expr defName (.intersection (op :: ops'))) cs = _
        rw [inferGo_intersection]
        simp only [List.foldl_cons, interStep, h1']
        rw [interFold_all_resolved st fuel defName cs ops' rs' hrest r]
      · intro k
        rw [mem_keys_foldl_intersect]
        constructor
        · rintro ⟨hk1, hk2⟩ r' hr'
          rcases List.mem_cons.mp hr' with rfl | hr'
          · exact hk1
          · exact hk2 r' hr'
        · intro hk
          exact ⟨hk r (by simp), fun r' hr' => hk r' (by simp [hr'])⟩

/-- Witness for C6 at `owner & lead` in `c678Ast` (both operands resolve
to `[user]`). -/
theorem intersection_inference_witness :
    2 ≤ ([PermissionExpression.identifier "owner",
          PermissionExpression.identifier "lead"]).length ∧
    (((∀ op ∈ [PermissionExpression.identifier "owner",
               PermissionExpression.identifier "lead"],
        inferExpressionType c678St 2 "document" op [] ≠ none) →
      (∃ op ∈ [PermissionExpression.identifier "owner",
               PermissionExpression.identifier "lead"],
        inferExpressionType c678St 2 "document" op [] = some none) →
      inferExpressionType c678St 3 "document"
        (.intersection [.identifier "owner", .identifier "lead"]) [] =
        some none) ∧
     (∀ rs : List (List RelationType),
       List.Forall₂ (fun op r =>
         inferExpressionType c678St 2 "document" op [] = some (some r))
         [.identifier "owner", .identifier "lead"] rs →
       ∃ l, inferExpressionType c678St 3 "document"
           (.intersection [.identifier "owner", .identifier "lead"]) [] =
           some (some l) ∧
         ∀ k, k ∈ l.map typeKey ↔ ∀ r ∈ rs, k ∈ r.map typeKey)) :=
  ⟨by decide,
   intersection_inference_strict c678St 2 "document" []
     [.identifier "owner", .identifier "lead"] (by decide)⟩

/-! ## C8: no duplicate composite keys in any inference result -/

/-- The keys of a `dedupGo` result are pairwise distinct. -/
theorem keys_dedupGo_nodup :
    ∀ (ts : List RelationType) (seen : List String),
      ((dedupGo ts seen).map typeKey).Nodup := by
  intro ts
  induction ts with
  | nil => intro seen; simp [dedupGo]
  | cons t ts ih =>
    intro seen
    rw [dedupGo]
    by_cases hc : typeKey t ∈ seen
    · rw [if_pos (by simpa using hc)]
      exact ih seen
    · rw [if_neg (by simpa using hc)]
      simp only [List.map_cons, List.nodup_cons]
      refine ⟨fun hmem => ?_, ih _⟩
      exact ((mem_keys_dedupGo _ ts _).mp hmem).2 (by simp)

/-- The keys of a `deduplicateTypes` result are pairwise distinct. -/
theorem keys_dedup_nodup (ts : List RelationType) :
    ((deduplicateTypes ts).map typeKey).Nodup :=
  keys_dedupGo_nodup ts []

/-- The keys of an `intersectTypes` result are pairwise distinct. -/
theorem keys_intersect_nodup (a b : List RelationType) :
    ((intersectTypes a b).map typeKey).Nodup :=
  keys_dedupGo_nodup _ []

/-- The intersection loop only ever carries key-distinct lists, given that
every completed nested inference result is key-distinct. -/
theorem interFold_nodup (st : SymbolTable) (f : Nat) (defName : String)
    (cs : List String)
    (ihf : ∀ (q : InferQuery) (cs' : List String) (l : List RelationType),
      inferGo st f q cs' = some (some l) → (l.map typeKey).Nodup) :
    ∀ (ops : List PermissionExpression) (acc : InterAcc),
      (∀ l, acc = .running (some l) → (l.map typeKey).Nodup) →
      (∀ l, acc = .stopped (some (some l)) → (l.map typeKey).Nodup) →
      (∀ l, ops.foldl (interStep st f defName cs) acc = .running (some l) →
        (l.map typeKey).Nodup) ∧
      (∀ l, ops.foldl (interStep st f defName cs) acc =
          .stopped (some (some l)) → (l.map typeKey).Nodup) := by
  intro ops
  induction ops with
  | nil => intro acc h1 h2; exact ⟨h1, h2⟩
  | cons op ops ihops =>
    intro acc h1 h2
    rw [List.foldl_cons]
    refine ihops (interStep st f defName cs acc op) ?_ ?_
    · intro l hl
      cases acc with
      | stopped r => rw [interStep] at hl; simp at hl
      | running common =>
        rw [interStep] at hl
        cases hop : inferGo st f (.expr defName op) cs with
        | none => rw [hop] at hl; simp at hl
        | some v =>
          cases v with
          | none => rw [hop] at hl; simp at hl
          | some types =>
            rw [hop] at hl
            cases common with
            | none =>
                have ht : types = l := by simpa using hl
                exact ht ▸ ihf _ _ _ hop
            | some c =>
                have ht : intersectTypes c types = l := by simpa using hl
                exact ht ▸ keys_intersect_nodup c types
    · intro l hl
      cases acc with
      | stopped r =>
          rw [interStep] at hl
          exact h2 l hl
      | running common =>
        rw [interStep] at hl
        cases hop : inferGo st f (.expr defName op) cs with
        | none => rw [hop] at hl; simp at hl
        | some v =>
          cases v with
          | none => rw [hop] at hl; simp at hl
          | some types => rw [hop] at hl; simp at hl

/-- Every completed, non-null result of the type-inference engine — for
either entry point and any call stack — has pairwise distinct composite
keys. -/
theorem inferGo_keys_nodup (st : SymbolTable) :
    ∀ (fuel : Nat) (q : InferQuery) (cs : List String)
      (l : List RelationType),
      inferGo st fuel q cs = some (some l) → (l.map typeKey).Nodup := by
  intro fuel
  induction fuel with
  | zero =>
      intro q cs l h
      rw [show inferGo st 0 q cs = none from rfl] at h
      exact absurd h (by simp)
  | succ f ih =>
    intro q cs l h
    match q with
    | .subRel typeName relationName =>
        rw [inferGo_subRel] at h
        split at h
        · split at h
          · exact absurd h (by simp)
          · injection h with h1
            injection h1 with h2
            exact h2 ▸ keys_dedup_nodup _
        · split at h
          · split at h
            · exact absurd h (by simp)
            · exact ih _ _ _ h
          · exact absurd h (by simp)
    | .expr defName e =>
      cases e with
      | identifier name =>
          rw [inferGo_identifier] at h
          split at h
          · split at h
            · exact absurd h (by simp)
            · injection h with h1
              injection h1 with h2
              exact h2 ▸ keys_dedup_nodup _
          · split at h
            · split at h
              · exact absurd h (by simp)
              · exact ih _ _ _ h
            · exact absurd h (by simp)
      | union ops =>
          rw [inferGo_union] at h
          split at h
          · exact absurd h (by simp)
          · injection h with h1
            injection h1 with h2
            exact h2 ▸ keys_dedup_nodup _
      | intersection ops =>
          rw [inferGo_intersection] at h
          have inv := interFold_nodup st f defName cs
            (fun q cs' l' h' => ih q cs' l' h') ops (.running none)
            (by intro l' hl; simp at hl) (by intro l' hl; simp at hl)
          cases hfold : ops.foldl (interStep st f defName cs) (.running none) with
          | stopped r =>
              rw [hfold] at h
              subst h
              exact inv.2 l hfold
          | running common =>
              rw [hfold] at h
              injection h with h1
              subst h1
              exact inv.1 l hfold
      | exclusion left right =>
          rw [show inferGo st (f + 1) (.expr defName (.exclusion left right)) cs =
            inferGo st f (.expr defName left) cs from rfl] at h
          exact ih _ _ _ h
      | arrow left target =>
          rw [(inferGo_arrowlike st f defName left target cs).1] at h
          split at h
          · exact absurd h (by simp)
          · exact absurd h (by simp)
          · split at h
            · exact absurd h (by simp)
            · injection h with h1
              injection h1 with h2
              exact h2 ▸ keys_dedup_nodup _
      | any left target =>
          rw [(inferGo_arrowlike st f defName left target cs).2.1] at h
          split at h
          · exact absurd h (by simp)
          · exact absurd h (by simp)
          · split at h
            · exact absurd h (by simp)
            · injection h with h1
              injection h1 with h2
              exact h2 ▸ keys_dedup_nodup _
      | all left target =>
          rw [(inferGo_arrowlike st f defName left target cs).2.2] at h
          split at h
          · exact absurd h (by simp)
          · exact absurd h (by simp)
          · split at h
            · exact absurd h (by simp)
            · injection h with h1
              injection h1 with h2
              exact h2 ▸ keys_dedup_nodup _

/-- C8: whenever `inferExpressionType` completes with a non-null subject
type list, that list contains no two entries with the same composite key
`typeName + (":*" if wildcard) + ("#"+relation if present)` — that key is
`typeKey`. -/
theorem inferred_subject_types_nodup (st : SymbolTable) (fuel : Nat)
    (defName : String) (expr : PermissionExpression) (cs : List String)
    (l : List RelationType)
    (h : inferExpressionType st fuel defName expr cs = some (some l)) :
    (l.map typeKey).Nodup :=
  inferGo_keys_nodup st fuel (.expr defName expr) cs l h

/-- Witness for C8: inferring `owner` on `document` yields `[user]`,
whose key list is duplicate-free. -/
theorem inferred_subject_types_nodup_witness :
    inferExpressionType c678St 2 "document" (.identifier "owner") [] =
      some (some [⟨"user", false, none⟩]) ∧
    (([⟨"user", false, none⟩] : List RelationType).map typeKey).Nodup :=
  ⟨by decide,
   inferred_subject_types_nodup c678St 2 "document" (.identifier "owner")
     [] _ (by decide)⟩

end ZedSchema
